import Mathlib

set_option autoImplicit false

/-!
Shallow embedding of the orchestration core of `bolo/instrument.py`
(class `Instrument`: eval_sky, eval_instrument, eval_sensitivities,
make_tables, write_tables, run).

External collaborators (the universe model, parameter sampling, camera
evaluation, Sensitivity table emission, table persistence) are modelled by an
event trace: each collaborator call the orchestrator makes is recorded as one
`Event`, in the order the source makes the calls.  The mutable attributes the
orchestrator itself owns (`_sns_dict`, `_tables`) are carried explicitly in an
`Instrument` record.  Python exceptions are modelled with `Except String`.
-/

namespace BoloCalc

/-- A table is opaque to the orchestrator; we model it as its list of rows
(rows themselves opaque, represented by `Nat` tags). -/
abbrev Table := List Nat

/-- Modelled from the spec: `TableDict` (from `bolo.data_utils`, whose source is
not provided) is an ordered keyed collection of tables supporting insertion
(`add_datatable`), removal (`pop_table`) and key enumeration; insertion on an
existing key replaces the value in place, otherwise appends (Python ordered
mapping semantics). -/
abbrev TableDict := List (String × Table)

/-- The keys of an ordered association list, in order. -/
def odKeys {β : Type} (d : List (String × β)) : List String := d.map Prod.fst

/-- First-match lookup in an ordered association list. -/
def odLookup {β : Type} (d : List (String × β)) (k : String) : Option β :=
  match d with
  | [] => none
  | (k₀, v) :: rest => if k₀ = k then some v else odLookup rest k

/-- Modelled from the spec: Python ordered-mapping assignment `d[k] = v`:
replace the value in place when the key is present (position preserved),
append otherwise. -/
def odictInsert {β : Type} : List (String × β) → String → β → List (String × β)
  | [], k, v => [(k, v)]
  | (k₀, v₀) :: rest, k, v =>
    if k₀ = k then (k, v) :: rest else (k₀, v₀) :: odictInsert rest k v

/-- Build an ordered mapping by assigning the pairs left to right (the nested
loop of `eval_sensitivities` performs exactly these assignments). -/
def odictOfPairs {β : Type} (ps : List (String × β)) : List (String × β) :=
  ps.foldl (fun d kv => odictInsert d kv.1 kv.2) []

/-- A channel is opaque to the orchestrator (a tag). -/
abbrev Channel := Nat

/-- Modelled from the spec: `Sensitivity` (from `bolo.sensitivity`, whose
source is not provided) is constructible from one evaluated channel; the
orchestrator only stores and enumerates these objects. -/
structure Sensitivity where
  channel : Channel
deriving DecidableEq, Repr

/-- A camera as seen by the orchestrator: it owns an ordered mapping from
channel name to channel. -/
structure Camera where
  channels : List (String × Channel)
deriving DecidableEq, Repr

/-- The orchestrator state: the camera mapping fixed at construction, and the
run-scoped derived attributes `_sns_dict` and `_tables` (both `None` until the
corresponding stage has run).  Scalar configuration properties (site,
sky_temp, ...) are not read by any of the orchestration methods and are
omitted. -/
structure Instrument where
  cameras : List (String × Camera)
  sns_dict : Option (List (String × Sensitivity))
  tables : Option TableDict
deriving DecidableEq, Repr

/-- The constructor sets `_tables = None` and `_sns_dict = None`. -/
def Instrument.init (cams : List (String × Camera)) : Instrument :=
  { cameras := cams, sns_dict := none, tables := none }

/-- The external universe / sky model, identified by a tag. -/
structure Universe where
  uid : Nat
deriving DecidableEq, Repr

/-- The simulation configuration fields `run` reads. -/
structure SimCfg where
  nsky_sim : Int
  ndet_sim : Int
  freq_resol : Option Nat
  save_summary : Bool
  save_sim : Bool
deriving DecidableEq, Repr

/-- One collaborator call made by the orchestrator. -/
inductive Event where
  | universeSample (uid : Nat) (n : Int)
  | obsEfficSample (n : Int)
  | cameraEvalSky (uid : Nat) (cam : String) (freqResol : Option Nat)
  | cameraSample (cam : String) (n : Int)
  | cameraEvalOpticalChains (cam : String) (n : Int) (freqResol : Option Nat)
  | cameraEvalDetResponse (cam : String) (n : Int) (freqResol : Option Nat)
  | sensNew (key : String)
  | makeTablesCall (basename : String) (saveSummary : Bool) (saveSim : Bool)
  | saveDatatables (filename : String)
deriving DecidableEq, Repr

/-- `Instrument.eval_sky`: `universe.sample(nsamples)`, then
`self._obs_effic.sample(nsamples)`, then `camera.eval_sky(universe,
freq_resol)` for every camera in order.  Pure trace; the method returns no
value. -/
def evalSky (cams : List (String × Camera)) (u : Universe) (nsamples : Int)
    (freqResol : Option Nat) : List Event :=
  Event.universeSample u.uid nsamples ::
  Event.obsEfficSample nsamples ::
  cams.map (fun c => Event.cameraEvalSky u.uid c.1 freqResol)

/-- `Instrument.eval_instrument`: for every camera in order,
`camera.sample(nsamples)`, then `camera.eval_optical_chains(nsamples,
freq_resol)`, then `camera.eval_det_response(nsamples, freq_resol)`. -/
def evalInstrument (cams : List (String × Camera)) (nsamples : Int)
    (freqResol : Option Nat) : List Event :=
  (cams.map (fun c =>
    [Event.cameraSample c.1 nsamples,
     Event.cameraEvalOpticalChains c.1 nsamples freqResol,
     Event.cameraEvalDetResponse c.1 nsamples freqResol])).flatten

/-- The (camera name ++ channel name, Sensitivity(channel)) pairs generated by
the nested loop of `eval_sensitivities`, in loop order. -/
def sensPairs (cams : List (String × Camera)) : List (String × Sensitivity) :=
  (cams.map (fun c =>
    c.2.channels.map (fun ch => (c.1 ++ ch.1, Sensitivity.mk ch.2)))).flatten

/-- `Instrument.eval_sensitivities`: `self._sns_dict = odict()` then one
assignment `self._sns_dict[cam_name + chan_name] = Sensitivity(channel)` per
(camera, channel) pair, in nested-loop order.  Each `Sensitivity(...)`
construction is a collaborator call, recorded in the trace. -/
def evalSensitivities (inst : Instrument) : Instrument × List Event :=
  ({ inst with sns_dict := some (odictOfPairs (sensPairs inst.cameras)) },
   (sensPairs inst.cameras).map (fun kv => Event.sensNew kv.1))

/-- First index at which `pat` occurs in the character list, if any. -/
def findSub (pat : List Char) : List Char → Option Nat
  | [] => if pat.isEmpty then some 0 else none
  | c :: rest =>
    if pat.isPrefixOf (c :: rest) then some 0
    else (findSub pat rest).map (fun i => i + 1)

/-- Python `s.find(pat)`: index of the first occurrence, or `-1`. -/
def pyFind (s pat : String) : Int :=
  match findSub pat.data s.data with
  | some i => (i : Int)
  | none => -1

/-- The summary-key test of `make_tables`: `key.find('_summary') > 0`. -/
def isSumKey (k : String) : Bool := decide (pyFind k "_summary" > 0)

/-- Modelled from the spec: `TableDict.pop_table` removes and returns the
entry under the given key (first occurrence); `none` when absent. -/
def popTable (d : TableDict) (k : String) : Option (Table × TableDict) :=
  match d with
  | [] => none
  | (k₀, t) :: rest =>
    if k₀ = k then some (t, rest)
    else (popTable rest k).map (fun r => (r.1, (k₀, t) :: r.2))

/-- The list comprehension `[self._tables.pop_table(k) for k in sum_keys]`:
sequential pops, each mutating the dictionary; a missing key raises. -/
def popAll (d : TableDict) (ks : List String) :
    Except String (List Table × TableDict) :=
  match ks with
  | [] => .ok ([], d)
  | k :: rest =>
    match popTable d k with
    | none => .error ("KeyError: " ++ k)
    | some (t, d₂) =>
      match popAll d₂ rest with
      | .ok (ts, d₃) => .ok (t :: ts, d₃)
      | .error e => .error e

/-- Modelled from the spec: the table-stack primitive (`astropy.table.vstack`)
concatenates the rows of a non-empty sequence of tables with identical schema
and raises on an empty sequence. -/
def vstack (ts : List Table) : Except String Table :=
  match ts with
  | [] => .error "ValueError: no values provided to stack"
  | _ => .ok ts.flatten

/-- Modelled from the spec: `Sensitivity.make_tables(name_prefix, tables,
save_summary, save_sim)` (from `bolo.sensitivity`, whose source is not
provided) populates the shared table collection under names derived from the
given name prefix.  The orchestrator treats it as an arbitrary transformation
of the collection, so we abstract it as a function parameter. -/
def SensWriter : Type :=
  String → Sensitivity → Bool → Bool → TableDict → TableDict

/-- The per-channel table-generation loop of `make_tables`:
`self._tables = TableDict()` then `val.make_tables(basename + key,
self._tables, save_summary, save_sim)` for every `(key, val)` in
`_sns_dict`, in order. -/
def tablesLoop (w : SensWriter) (basename : String) (saveSummary saveSim : Bool)
    (sns : List (String × Sensitivity)) : TableDict :=
  sns.foldl (fun d kv => w (basename ++ kv.1) kv.2 saveSummary saveSim d) []

/-- The summary-aggregation tail of `make_tables`: collect the keys with
`key.find('_summary') > 0`, pop each of them, vstack the popped tables, and
add the result under `basename + "summary"`. -/
def summarize (basename : String) (d : TableDict) : Except String TableDict :=
  let sumKeys := (odKeys d).filter (fun k => isSumKey k)
  match popAll d sumKeys with
  | .error e => .error e
  | .ok (ts, d₂) =>
    match vstack ts with
    | .error e => .error e
    | .ok t => .ok (odictInsert d₂ (basename ++ "summary") t)

/-- `Instrument.make_tables`: run the per-channel loop over `_sns_dict`
(reading `_sns_dict` when it is `None` raises), return the collection as is
when `save_summary` is false, otherwise aggregate the summary.  The returned
collection is the instrument's `_tables` attribute. -/
def makeTables (w : SensWriter) (inst : Instrument) (basename : String)
    (saveSummary saveSim : Bool) : Except String Instrument :=
  match inst.sns_dict with
  | none => .error "AttributeError: _sns_dict is None"
  | some sns =>
    let d := tablesLoop w basename saveSummary saveSim sns
    if saveSummary then
      match summarize basename d with
      | .error e => .error e
      | .ok d₂ => .ok { inst with tables := some d₂ }
    else .ok { inst with tables := some d }

/-- Python truthiness of the `_tables` attribute: `None` and an empty mapping
are falsy, a non-empty mapping is truthy. -/
def tdTruthy : Option TableDict → Bool
  | none => false
  | some d => !d.isEmpty

/-- `Instrument.write_tables`: `if self._tables:
self._tables.save_datatables(filename)`. -/
def writeTables (inst : Instrument) (filename : String) :
    Instrument × List Event :=
  if tdTruthy inst.tables then (inst, [Event.saveDatatables filename])
  else (inst, [])

/-- `Instrument.run`: the four stages in order, then `make_tables` with the
summary flag forced to `False` when `max(nsky_sim,1) * max(ndet_sim,1) == 1`.
The trace records every collaborator call plus the final `make_tables`
invocation with the flags actually passed. -/
def run (w : SensWriter) (inst : Instrument) (u : Universe) (cfg : SimCfg)
    (basename : String) : Except String Instrument × List Event :=
  let t₁ := evalSky inst.cameras u cfg.nsky_sim cfg.freq_resol
  let t₂ := evalInstrument inst.cameras cfg.ndet_sim cfg.freq_resol
  let p := evalSensitivities inst
  let ss := if max cfg.nsky_sim 1 * max cfg.ndet_sim 1 = 1 then false
            else cfg.save_summary
  (makeTables w p.1 basename ss cfg.save_sim,
   t₁ ++ t₂ ++ p.2 ++ [Event.makeTablesCall basename ss cfg.save_sim])

/-! Concrete fixtures used to instantiate the theorems below on closed inputs. -/

/-- A sample writer emitting one per-channel summary table. -/
def wSum : SensWriter := fun p _ _ _ d => odictInsert d (p ++ "_summary") [7]

/-- A sample writer emitting one per-sample table and one per-channel summary
table. -/
def wBoth : SensWriter :=
  fun p _ _ _ d => odictInsert (odictInsert d p [5]) (p ++ "_summary") [7]

/-- A two-camera instrument with distinct concatenated keys. -/
def instA : Instrument :=
  { cameras := [("cam1", ⟨[("ch1", 11), ("ch2", 12)]⟩),
                ("cam2", ⟨[("ch1", 21)]⟩)],
    sns_dict := none, tables := none }

/-- Two (camera, channel) pairs whose concatenated keys collide:
"ab" ++ "c" = "a" ++ "bc" = "abc". -/
def instDup : Instrument :=
  { cameras := [("ab", ⟨[("c", 1)]⟩), ("a", ⟨[("bc", 2)]⟩)],
    sns_dict := none, tables := none }

/-- An instrument whose Sensitivity collection is present but empty. -/
def instEmptySns : Instrument :=
  { cameras := [], sns_dict := some [], tables := none }

/-- An instrument with a single Sensitivity entry. -/
def instOneSns : Instrument :=
  { cameras := [], sns_dict := some [("c", ⟨0⟩)], tables := none }

/-- A deterministic simulation configuration (no Monte Carlo draws) with the
summary flag configured on. -/
def cfgDet : SimCfg :=
  { nsky_sim := 0, ndet_sim := 0, freq_resol := none,
    save_summary := true, save_sim := true }

/-- `instA` with a stale, non-empty Sensitivity collection left over from an
earlier call. -/
def instPrior : Instrument :=
  { cameras := instA.cameras, sns_dict := some [("zz", ⟨9⟩)], tables := none }

/-- The expected value of the aggregation performed by `make_tables` when
`save_summary` is true: the loop-generated collection with every
summary-marker entry removed, plus the vertical concatenation of the removed
tables reinserted under `basename ++ "summary"`. -/
def summaryResult (w : SensWriter) (b : String) (si : Bool)
    (sns : List (String × Sensitivity)) : TableDict :=
  odictInsert
    ((tablesLoop w b true si sns).filter (fun x => !(isSumKey x.1)))
    (b ++ "summary")
    (((tablesLoop w b true si sns).filter
      (fun x => isSumKey x.1)).map Prod.snd).flatten

/-! Library lemmas about the ordered-mapping model. -/

theorem odKeys_append {β : Type} (d₁ d₂ : List (String × β)) :
    odKeys (d₁ ++ d₂) = odKeys d₁ ++ odKeys d₂ :=
  List.map_append _ _ _

theorem odKeys_odictInsert {β : Type} (d : List (String × β)) (k : String)
    (v : β) :
    odKeys (odictInsert d k v) =
      if k ∈ odKeys d then odKeys d else odKeys d ++ [k] := by
  induction d with
  | nil => simp [odictInsert, odKeys]
  | cons p rest ih =>
    obtain ⟨k₀, v₀⟩ := p
    by_cases h : k₀ = k
    · subst h
      simp [odictInsert, odKeys]
    · have hcons : odictInsert ((k₀, v₀) :: rest) k v =
        (k₀, v₀) :: odictInsert rest k v := by
        simp [odictInsert, h]
      rw [hcons]
      have h₁ : odKeys ((k₀, v₀) :: odictInsert rest k v) =
        k₀ :: odKeys (odictInsert rest k v) := rfl
      have h₂ : odKeys ((k₀, v₀) :: rest) = k₀ :: odKeys rest := rfl
      rw [h₁, h₂, ih]
      by_cases hm : k ∈ odKeys rest
      · have hmc : k ∈ k₀ :: odKeys rest := List.mem_cons_of_mem _ hm
        rw [if_pos hm, if_pos hmc]
      · have hmc : k ∉ k₀ :: odKeys rest := by
          intro hc
          rcases List.mem_cons.mp hc with h₃ | h₃
          · exact h h₃.symm
          · exact hm h₃
        rw [if_neg hm, if_neg hmc, List.cons_append]

theorem mem_odKeys_odictInsert {β : Type} (d : List (String × β)) (k a : String)
    (v : β) :
    a ∈ odKeys (odictInsert d k v) ↔ a ∈ odKeys d ∨ a = k := by
  by_cases hk : k ∈ odKeys d
  · rw [odKeys_odictInsert]
    simp only [hk, if_true]
    exact ⟨Or.inl, fun h => h.elim id (fun h' => h' ▸ hk)⟩
  · rw [odKeys_odictInsert]
    simp [hk]

theorem nodup_odKeys_odictInsert {β : Type} (d : List (String × β)) (k : String)
    (v : β) (h : (odKeys d).Nodup) :
    (odKeys (odictInsert d k v)).Nodup := by
  rw [odKeys_odictInsert]
  by_cases hk : k ∈ odKeys d
  · simpa [hk] using h
  · simp [hk, List.nodup_append, h]

theorem odLookup_odictInsert {β : Type} (d : List (String × β)) (k a : String)
    (v : β) :
    odLookup (odictInsert d k v) a = if a = k then some v else odLookup d a := by
  induction d with
  | nil =>
    simp [odictInsert, odLookup, eq_comm]
  | cons p rest ih =>
    obtain ⟨k₀, v₀⟩ := p
    by_cases h : k₀ = k
    · subst h
      by_cases ha : a = k₀ <;> simp [odictInsert, odLookup, ha, eq_comm]
    · by_cases ha : k₀ = a
      · have hak : ¬ a = k := fun hc => h (ha.trans hc)
        simp [odictInsert, h, odLookup, ha, hak]
      · simp [odictInsert, h, odLookup, ha, ih]

theorem odictInsert_of_not_mem {β : Type} (d : List (String × β)) (k : String)
    (v : β) (h : k ∉ odKeys d) :
    odictInsert d k v = d ++ [(k, v)] := by
  induction d with
  | nil => rfl
  | cons p rest ih =>
    obtain ⟨k₀, v₀⟩ := p
    have h₀ : ¬ k₀ = k := by
      intro hc
      exact h (by simp [odKeys, hc])
    have hr : k ∉ odKeys rest := fun hc => h (by simp [odKeys] at hc ⊢; exact Or.inr hc)
    simp [odictInsert, h₀, ih hr]

theorem mem_odKeys_foldl {β : Type} (ps : List (String × β))
    (acc : List (String × β)) (a : String) :
    a ∈ odKeys (ps.foldl (fun d kv => odictInsert d kv.1 kv.2) acc) ↔
      a ∈ odKeys acc ∨ a ∈ ps.map Prod.fst := by
  induction ps generalizing acc with
  | nil => simp
  | cons p rest ih =>
    rw [List.foldl_cons, ih, mem_odKeys_odictInsert]
    simp
    tauto

theorem nodup_odKeys_foldl {β : Type} (ps : List (String × β))
    (acc : List (String × β)) (h : (odKeys acc).Nodup) :
    (odKeys (ps.foldl (fun d kv => odictInsert d kv.1 kv.2) acc)).Nodup := by
  induction ps generalizing acc with
  | nil => exact h
  | cons p rest ih =>
    rw [List.foldl_cons]
    exact ih _ (nodup_odKeys_odictInsert _ _ _ h)

theorem odLookup_foldl_of_none {β : Type} (ps : List (String × β))
    (acc : List (String × β)) (a : String)
    (hg : (ps.filter (fun p => p.1 = a)).getLast? = none) :
    odLookup (ps.foldl (fun d kv => odictInsert d kv.1 kv.2) acc) a =
      odLookup acc a := by
  induction ps generalizing acc with
  | nil => rfl
  | cons p rest ih =>
    rw [List.getLast?_eq_none_iff] at hg
    by_cases h : p.1 = a
    · rw [List.filter_cons_of_pos (by simpa using h)] at hg
      exact absurd hg (List.cons_ne_nil _ _)
    · rw [List.filter_cons_of_neg (by simpa using h)] at hg
      rw [List.foldl_cons,
        ih _ (by rw [hg]; rfl), odLookup_odictInsert]
      have hne : ¬ a = p.1 := fun hc => h hc.symm
      rw [if_neg hne]

theorem odLookup_foldl_of_some {β : Type} (ps : List (String × β))
    (acc : List (String × β)) (a : String) (p₀ : String × β)
    (hg : (ps.filter (fun p => p.1 = a)).getLast? = some p₀) :
    odLookup (ps.foldl (fun d kv => odictInsert d kv.1 kv.2) acc) a =
      some p₀.2 := by
  induction ps generalizing acc with
  | nil => simp at hg
  | cons p rest ih =>
    by_cases h : p.1 = a
    · rw [List.filter_cons_of_pos (by simpa using h)] at hg
      cases hr : rest.filter (fun q => q.1 = a) with
      | nil =>
        rw [hr] at hg
        have hp : p₀ = p := by
          have : some p = some p₀ := by simpa using hg
          exact (Option.some_inj.mp this).symm
        rw [List.foldl_cons,
          odLookup_foldl_of_none rest _ a (by rw [hr]; rfl),
          odLookup_odictInsert, if_pos h.symm, hp]
      | cons q l =>
        rw [hr, List.getLast?_cons_cons] at hg
        rw [List.foldl_cons]
        exact ih _ (by rw [hr]; exact hg)
    · rw [List.filter_cons_of_neg (by simpa using h)] at hg
      rw [List.foldl_cons]
      exact ih _ hg

theorem odLookup_odictOfPairs {β : Type} (ps : List (String × β)) (a : String) :
    odLookup (odictOfPairs ps) a =
      ((ps.filter (fun p => p.1 = a)).getLast?).map Prod.snd := by
  cases hg : (ps.filter (fun p => p.1 = a)).getLast? with
  | none => rw [odictOfPairs, odLookup_foldl_of_none ps [] a hg]; rfl
  | some p => rw [odictOfPairs, odLookup_foldl_of_some ps [] a p hg]; rfl

theorem odictOfPairs_of_nodup_aux {β : Type} (ps : List (String × β))
    (acc : List (String × β))
    (h : (odKeys acc ++ ps.map Prod.fst).Nodup) :
    ps.foldl (fun d kv => odictInsert d kv.1 kv.2) acc = acc ++ ps := by
  induction ps generalizing acc with
  | nil => simp
  | cons p rest ih =>
    have hd := (List.nodup_append.mp h).2.2
    have hk : p.1 ∉ odKeys acc := fun hc => hd hc (by simp)
    rw [List.foldl_cons, odictInsert_of_not_mem _ _ _ hk, ih]
    · simp
    · rw [odKeys_append]
      have h₂ : odKeys [p] = [p.1] := rfl
      rw [h₂, List.append_assoc]
      simpa using h

theorem odictOfPairs_of_nodup {β : Type} (ps : List (String × β))
    (h : (ps.map Prod.fst).Nodup) :
    odictOfPairs ps = ps := by
  rw [odictOfPairs, odictOfPairs_of_nodup_aux ps [] (by simpa [odKeys] using h)]
  simp

theorem length_dedup_lt_of_not_nodup {α : Type} [DecidableEq α] {l : List α}
    (h : ¬ l.Nodup) : l.dedup.length < l.length := by
  rcases Nat.lt_or_ge l.dedup.length l.length with hlt | hge
  · exact hlt
  · exfalso
    have hs := List.dedup_sublist l
    have heq : l.dedup = l := hs.eq_of_length_le hge
    exact h (heq ▸ List.nodup_dedup l)

theorem length_odictOfPairs_lt {β : Type} (ps : List (String × β))
    (h : ¬ (ps.map Prod.fst).Nodup) :
    (odictOfPairs ps).length < ps.length := by
  have h₁ : (odKeys (odictOfPairs ps)).Nodup :=
    nodup_odKeys_foldl ps [] (by simp [odKeys])
  have h₂ : odKeys (odictOfPairs ps) ⊆ (ps.map Prod.fst).dedup := by
    intro a ha
    rw [List.mem_dedup]
    have := (mem_odKeys_foldl ps [] a).mp ha
    simpa [odKeys] using this
  have h₃ := (List.subperm_of_subset h₁ h₂).length_le
  have h₄ := length_dedup_lt_of_not_nodup h
  have h₅ : (odictOfPairs ps).length = (odKeys (odictOfPairs ps)).length :=
    (List.length_map _ _).symm
  have h₆ : (ps.map Prod.fst).length = ps.length := List.length_map _ _
  omega

theorem popAll_cons_ne (k₀ : String) (t₀ : Table) (d : TableDict)
    (ks : List String) (h : ∀ x ∈ ks, x ≠ k₀) :
    popAll ((k₀, t₀) :: d) ks =
      (popAll d ks).map (fun r => (r.1, (k₀, t₀) :: r.2)) := by
  induction ks generalizing d with
  | nil => rfl
  | cons k rest ih =>
    have hk : ¬ k₀ = k := fun hc => h k (by simp) hc.symm
    have hrest : ∀ x ∈ rest, x ≠ k₀ := fun x hx => h x (by simp [hx])
    cases hp : popTable d k with
    | none =>
      simp [popAll, popTable, hk, hp, Except.map]
    | some r =>
      obtain ⟨t, d₂⟩ := r
      cases hq : popAll d₂ rest with
      | ok r₂ =>
        obtain ⟨ts, d₃⟩ := r₂
        simp [popAll, popTable, hk, hp, ih d₂ hrest, hq, Except.map]
      | error e =>
        simp [popAll, popTable, hk, hp, ih d₂ hrest, hq, Except.map]

theorem popAll_filter (p : String → Bool) (d : TableDict)
    (h : (odKeys d).Nodup) :
    popAll d ((odKeys d).filter p) =
      .ok ((d.filter (fun x => p x.1)).map Prod.snd,
           d.filter (fun x => !(p x.1))) := by
  induction d with
  | nil => rfl
  | cons q rest ih =>
    obtain ⟨k, t⟩ := q
    have hkeys : odKeys ((k, t) :: rest) = k :: odKeys rest := rfl
    rw [hkeys] at h ⊢
    have hk : k ∉ odKeys rest := (List.nodup_cons.mp h).1
    have hrest : (odKeys rest).Nodup := (List.nodup_cons.mp h).2
    by_cases hp : p k
    · rw [List.filter_cons_of_pos (by simpa using hp)]
      have h₁ : popTable ((k, t) :: rest) k = some (t, rest) := by
        simp [popTable]
      simp [popAll, h₁, ih hrest, List.filter_cons, hp]
    · rw [List.filter_cons_of_neg (by simpa using hp)]
      have hne : ∀ x ∈ (odKeys rest).filter p, x ≠ k := by
        intro x hx
        have hx₂ := List.mem_of_mem_filter hx
        exact fun hc => hk (hc ▸ hx₂)
      rw [popAll_cons_ne k t rest _ hne, ih hrest]
      simp [List.filter_cons, hp, Except.map]

theorem odKeys_filter (p : String → Bool) (d : TableDict) :
    odKeys (d.filter (fun x => p x.1)) = (odKeys d).filter p := by
  induction d with
  | nil => rfl
  | cons q rest ih =>
    by_cases hp : p q.1 <;>
      simp [List.filter_cons, hp, odKeys, ih] <;>
      simpa [odKeys] using ih

theorem summarize_eq (b : String) (d : TableDict)
    (h : (odKeys d).Nodup) (hex : ∃ k ∈ odKeys d, isSumKey k) :
    summarize b d =
      .ok (odictInsert (d.filter (fun x => !(isSumKey x.1)))
        (b ++ "summary")
        ((d.filter (fun x => isSumKey x.1)).map Prod.snd).flatten) := by
  have hpa := popAll_filter (fun k => isSumKey k) d h
  have hne : (d.filter (fun x => isSumKey x.1)).map Prod.snd ≠ [] := by
    obtain ⟨k, hk, hs⟩ := hex
    intro hc
    have h₁ : d.filter (fun x => isSumKey x.1) = [] := by
      cases hd : d.filter (fun x => isSumKey x.1) with
      | nil => rfl
      | cons x l => rw [hd] at hc; simp at hc
    have h₂ : (odKeys d).filter (fun k => isSumKey k) = [] := by
      rw [← odKeys_filter, h₁]; rfl
    have h₃ : k ∈ (odKeys d).filter (fun k => isSumKey k) :=
      List.mem_filter.mpr ⟨hk, hs⟩
    rw [h₂] at h₃
    simp at h₃
  rw [summarize, hpa]
  cases hts : (d.filter (fun x => isSumKey x.1)).map Prod.snd with
  | nil => exact absurd hts hne
  | cons a l =>
    simp [vstack, ← hts]

/-! The claims. -/

/-- C6: for every sample count `n`, `eval_sky(universe, n, freq_resol)` first
instructs the universe model to draw `n` samples, then resamples the
instrument's `obs_effic` parameter with the same count `n`, and only then
delegates sky evaluation to every owned camera (in order, and nothing else);
it returns no value (in this model the method produces only its trace of
collaborator calls). -/
theorem evalSky_order (cams : List (String × Camera)) (u : Universe) (n : Int)
    (r : Option Nat) :
    (evalSky cams u n r).head? = some (Event.universeSample u.uid n) ∧
    ((evalSky cams u n r).drop 1).head? = some (Event.obsEfficSample n) ∧
    (evalSky cams u n r).drop 2 =
      cams.map (fun c => Event.cameraEvalSky u.uid c.1 r) ∧
    (evalSky cams u n r).length = 2 + cams.length := by
  refine ⟨rfl, rfl, rfl, ?_⟩
  simp [evalSky]
  omega

/-- C7: `eval_instrument(nsamples, freq_resol)` performs, for each owned
camera, exactly the three operations `sample`, `eval_optical_chains`,
`eval_det_response` in that order, completing all three for one camera before
moving to the next; the trace segment contributed by a camera is a function
of that camera alone (cross-camera independence). -/
theorem evalInstrument_camera_order (pre suf : List (String × Camera))
    (c : String × Camera) (n : Int) (r : Option Nat) :
    evalInstrument [c] n r =
      [Event.cameraSample c.1 n,
       Event.cameraEvalOpticalChains c.1 n r,
       Event.cameraEvalDetResponse c.1 n r] ∧
    evalInstrument (pre ++ c :: suf) n r =
      evalInstrument pre n r ++ evalInstrument [c] n r ++
        evalInstrument suf n r := by
  constructor
  · rfl
  · simp [evalInstrument]

/-- C4: every invocation of `run(universe, sim_cfg, basename)` produces
exactly the trace of `eval_sky` (receiving `sim_cfg.nsky_sim`), then
`eval_instrument` (receiving `sim_cfg.ndet_sim`), then `eval_sensitivities`,
then the `make_tables` call — in this strict order, with no stage skipped and
no branching back; and its result is that of the final `make_tables` call. -/
theorem run_stage_order (w : SensWriter) (inst : Instrument) (u : Universe)
    (cfg : SimCfg) (b : String) :
    (run w inst u cfg b).2 =
      evalSky inst.cameras u cfg.nsky_sim cfg.freq_resol ++
      evalInstrument inst.cameras cfg.ndet_sim cfg.freq_resol ++
      (evalSensitivities inst).2 ++
      [Event.makeTablesCall b
        (if max cfg.nsky_sim 1 * max cfg.ndet_sim 1 = 1 then false
         else cfg.save_summary) cfg.save_sim] ∧
    (run w inst u cfg b).1 =
      makeTables w (evalSensitivities inst).1 b
        (if max cfg.nsky_sim 1 * max cfg.ndet_sim 1 = 1 then false
         else cfg.save_summary) cfg.save_sim :=
  ⟨rfl, rfl⟩

/-- C9: calling `write_tables` on an instrument whose `_tables` attribute was
never set (still `None`) returns normally, performs no serialization call,
and leaves the instrument state unchanged. -/
theorem writeTables_unset_noop (inst : Instrument) (f : String)
    (h : inst.tables = none) :
    writeTables inst f = (inst, []) := by
  simp [writeTables, tdTruthy, h]

/-- C9 witness: a freshly constructed instrument. -/
theorem writeTables_unset_noop_witness :
    writeTables (Instrument.init []) "out.fits" = (Instrument.init [], []) :=
  writeTables_unset_noop (Instrument.init []) "out.fits" rfl

/-- C10: after `make_tables` with zero Sensitivity entries and
`save_summary = False`, the table collection is set but empty, and
`write_tables` then performs no serialization at all: the guard tests the
collection's truthiness, not merely whether it was ever set. -/
theorem writeTables_empty_collection_noop (w : SensWriter) (inst : Instrument)
    (b f : String) (si : Bool) (hs : inst.sns_dict = some []) :
    makeTables w inst b false si = .ok { inst with tables := some [] } ∧
    writeTables { inst with tables := some [] } f =
      ({ inst with tables := some [] }, []) := by
  constructor
  · simp [makeTables, hs, tablesLoop]
  · simp [writeTables, tdTruthy]

/-- C10 witness. -/
theorem writeTables_empty_collection_noop_witness :
    makeTables wSum instEmptySns "b" false true =
      .ok { instEmptySns with tables := some [] } ∧
    writeTables { instEmptySns with tables := some [] } "out.fits" =
      ({ instEmptySns with tables := some [] }, []) :=
  writeTables_empty_collection_noop wSum instEmptySns "b" "out.fits" true rfl

/-- C5: with a present but empty Sensitivity collection, `make_tables` with
`save_summary = True` finds no summary keys, the vertical concatenation of
zero tables raises, and the error propagates uncaught to the caller (the
whole call evaluates to the error). -/
theorem makeTables_empty_sns_error (w : SensWriter) (inst : Instrument)
    (b : String) (si : Bool) (hs : inst.sns_dict = some []) :
    makeTables w inst b true si =
      .error "ValueError: no values provided to stack" := by
  simp [makeTables, hs, tablesLoop, summarize, odKeys, popAll, vstack]

/-- C5 witness. -/
theorem makeTables_empty_sns_error_witness :
    makeTables wSum instEmptySns "b" true true =
      .error "ValueError: no values provided to stack" :=
  makeTables_empty_sns_error wSum instEmptySns "b" true rfl

/-- C1: `run` computes `n = max(nsky_sim,1) * max(ndet_sim,1)` and calls
`make_tables` with `save_summary = False` when `n = 1`, and with the
configured `sim_cfg.save_summary` unchanged otherwise (the flag recorded in
the final `make_tables` call of the trace is exactly the forced one, and the
result of `run` is that call's result); and whenever `make_tables` receives a
false `save_summary` flag it returns the per-sample-only collection produced
by the per-channel loop, with no summary aggregation performed. -/
theorem run_summary_policy (w : SensWriter) (inst : Instrument) (u : Universe)
    (cfg : SimCfg) (b : String) (inst' : Instrument)
    (sns : List (String × Sensitivity)) (si : Bool)
    (hs : inst'.sns_dict = some sns) :
    ((run w inst u cfg b).2).getLast? =
      some (Event.makeTablesCall b
        (if max cfg.nsky_sim 1 * max cfg.ndet_sim 1 = 1 then false
         else cfg.save_summary) cfg.save_sim) ∧
    (run w inst u cfg b).1 =
      makeTables w (evalSensitivities inst).1 b
        (if max cfg.nsky_sim 1 * max cfg.ndet_sim 1 = 1 then false
         else cfg.save_summary) cfg.save_sim ∧
    (max cfg.nsky_sim 1 * max cfg.ndet_sim 1 = 1 →
      (if max cfg.nsky_sim 1 * max cfg.ndet_sim 1 = 1 then false
       else cfg.save_summary) = false) ∧
    (max cfg.nsky_sim 1 * max cfg.ndet_sim 1 ≠ 1 →
      (if max cfg.nsky_sim 1 * max cfg.ndet_sim 1 = 1 then false
       else cfg.save_summary) = cfg.save_summary) ∧
    makeTables w inst' b false si =
      .ok { inst' with tables := some (tablesLoop w b false si sns) } := by
  refine ⟨?_, rfl, fun h => by simp [h], fun h => by simp [h], ?_⟩
  · have h₁ : (run w inst u cfg b).2 =
      (evalSky inst.cameras u cfg.nsky_sim cfg.freq_resol ++
       evalInstrument inst.cameras cfg.ndet_sim cfg.freq_resol ++
       (evalSensitivities inst).2) ++
      [Event.makeTablesCall b
        (if max cfg.nsky_sim 1 * max cfg.ndet_sim 1 = 1 then false
         else cfg.save_summary) cfg.save_sim] := rfl
    rw [h₁, List.getLast?_concat]
  · simp [makeTables, hs]

/-- C1 witness: a deterministic configuration (`n = 1`) with the summary flag
configured on, and a separate `make_tables` call with the flag off. -/
theorem run_summary_policy_witness :
    ((run wSum instA ⟨5⟩ cfgDet "b_").2).getLast? =
      some (Event.makeTablesCall "b_"
        (if max cfgDet.nsky_sim 1 * max cfgDet.ndet_sim 1 = 1 then false
         else cfgDet.save_summary) cfgDet.save_sim) ∧
    (run wSum instA ⟨5⟩ cfgDet "b_").1 =
      makeTables wSum (evalSensitivities instA).1 "b_"
        (if max cfgDet.nsky_sim 1 * max cfgDet.ndet_sim 1 = 1 then false
         else cfgDet.save_summary) cfgDet.save_sim ∧
    (max cfgDet.nsky_sim 1 * max cfgDet.ndet_sim 1 = 1 →
      (if max cfgDet.nsky_sim 1 * max cfgDet.ndet_sim 1 = 1 then false
       else cfgDet.save_summary) = false) ∧
    (max cfgDet.nsky_sim 1 * max cfgDet.ndet_sim 1 ≠ 1 →
      (if max cfgDet.nsky_sim 1 * max cfgDet.ndet_sim 1 = 1 then false
       else cfgDet.save_summary) = cfgDet.save_summary) ∧
    makeTables wSum instOneSns "b_" false true =
      .ok { instOneSns with
        tables := some (tablesLoop wSum "b_" false true [("c", ⟨0⟩)]) } :=
  run_summary_policy wSum instA ⟨5⟩ cfgDet "b_" instOneSns [("c", ⟨0⟩)] true rfl

/-- C2: when `save_summary` is true, `make_tables` pops every table whose key
matches the summary-marker test of the source (`key.find('_summary') > 0`),
vertically concatenates the popped tables, and reinserts the result exactly
once under `basename ++ "summary"`; afterwards no key matching the marker
remains among the per-sample detail entries of the returned collection.
Stated for any writer and any entry `k` of the result, under the implicit
contract that the loop produced distinct keys and at least one summary
table. -/
theorem makeTables_summary_extraction (w : SensWriter) (inst : Instrument)
    (b : String) (si : Bool) (sns : List (String × Sensitivity)) (k : String)
    (hs : inst.sns_dict = some sns)
    (hnd : (odKeys (tablesLoop w b true si sns)).Nodup)
    (hex : ∃ x ∈ odKeys (tablesLoop w b true si sns), isSumKey x) :
    makeTables w inst b true si =
      .ok { inst with tables := some (summaryResult w b si sns) } ∧
    (odKeys (summaryResult w b si sns)).count (b ++ "summary") = 1 ∧
    (k ∈ odKeys (summaryResult w b si sns) → k ≠ b ++ "summary" →
      isSumKey k = false) := by
  have hsum := summarize_eq b (tablesLoop w b true si sns) hnd hex
  have hnd₂ : (odKeys ((tablesLoop w b true si sns).filter
      (fun x => !(isSumKey x.1)))).Nodup := by
    have he := odKeys_filter (fun s => !(isSumKey s)) (tablesLoop w b true si sns)
    rw [he]
    exact hnd.filter _
  refine ⟨?_, ?_, ?_⟩
  · simp only [makeTables, hs]
    rw [hsum]
    rfl
  · have hndr : (odKeys (summaryResult w b si sns)).Nodup :=
      nodup_odKeys_odictInsert _ _ _ hnd₂
    have hmem : (b ++ "summary") ∈ odKeys (summaryResult w b si sns) :=
      (mem_odKeys_odictInsert _ _ _ _).mpr (Or.inr rfl)
    exact List.count_eq_one_of_mem hndr hmem
  · intro hk hne
    rcases (mem_odKeys_odictInsert _ _ _ _).mp hk with hin | hkey
    · have he := odKeys_filter (fun s => !(isSumKey s)) (tablesLoop w b true si sns)
      rw [he] at hin
      have := (List.mem_filter.mp hin).2
      simpa using this
    · exact absurd hkey hne

/-- C2 witness: one channel, a writer emitting one detail table and one
per-channel summary table. -/
theorem makeTables_summary_extraction_witness :
    makeTables wBoth instOneSns "t" true true =
      .ok { instOneSns with
        tables := some (summaryResult wBoth "t" true [("c", ⟨0⟩)]) } ∧
    (odKeys (summaryResult wBoth "t" true [("c", ⟨0⟩)])).count
      ("t" ++ "summary") = 1 ∧
    ("tc" ∈ odKeys (summaryResult wBoth "t" true [("c", ⟨0⟩)]) →
      "tc" ≠ "t" ++ "summary" → isSumKey "tc" = false) :=
  makeTables_summary_extraction wBoth instOneSns "t" true [("c", ⟨0⟩)] "tc"
    rfl (by decide) (by decide)

/-- C3 counterexample: on `instDup`, the camera names "ab", "a" and channel
names "c", "bc" give two (camera, channel) pairs whose concatenated keys
coincide ("abc"), so the rebuilt collection holds a single entry — not
exactly one entry per (camera, channel) pair as the claim states. -/
theorem evalSensitivities_one_entry_per_pair_cex :
    (evalSensitivities instDup).1.sns_dict = some [("abc", ⟨2⟩)] ∧
    (sensPairs instDup.cameras).length = 2 ∧
    ¬ ∃ d, (evalSensitivities instDup).1.sns_dict = some d ∧
      d.length = (sensPairs instDup.cameras).length := by
  refine ⟨rfl, rfl, ?_⟩
  rintro ⟨d, hd, hl⟩
  have hd₂ : d = [("abc", ⟨2⟩)] := by
    have h₁ : some d = some [("abc", (⟨2⟩ : Sensitivity))] := by
      rw [← hd]; rfl
    exact Option.some_inj.mp h₁
  rw [hd₂] at hl
  simp [sensPairs, instDup] at hl

/-- C3 (amended): provided the concatenated keys
`camera_name ++ channel_name` are pairwise distinct across the
camera×channel cross-product, `eval_sensitivities()` replaces the Sensitivity
collection with a freshly built one holding exactly one entry per (camera,
channel) pair, keyed by the concatenation in loop order; the result does not
depend on any prior `_sns_dict` contents, so calling it twice in a row yields
the same collection (hence the same keys) both times. -/
theorem evalSensitivities_fresh_keys (inst inst' : Instrument)
    (hcam : inst'.cameras = inst.cameras)
    (h : ((sensPairs inst.cameras).map Prod.fst).Nodup) :
    (evalSensitivities inst).1.sns_dict = some (sensPairs inst.cameras) ∧
    (evalSensitivities inst').1.sns_dict =
      (evalSensitivities inst).1.sns_dict ∧
    (evalSensitivities (evalSensitivities inst).1).1.sns_dict =
      (evalSensitivities inst).1.sns_dict := by
  refine ⟨?_, ?_, ?_⟩
  · simp [evalSensitivities, odictOfPairs_of_nodup _ h]
  · simp [evalSensitivities, hcam]
  · rfl

/-- C3 witness: two cameras with three channels in total and distinct
concatenated keys; `instPrior` carries stale prior results. -/
theorem evalSensitivities_fresh_keys_witness :
    (evalSensitivities instA).1.sns_dict = some (sensPairs instA.cameras) ∧
    (evalSensitivities instPrior).1.sns_dict =
      (evalSensitivities instA).1.sns_dict ∧
    (evalSensitivities (evalSensitivities instA).1).1.sns_dict =
      (evalSensitivities instA).1.sns_dict :=
  evalSensitivities_fresh_keys instA instPrior rfl (by decide)

/-- C8: if the concatenated keys of the (camera, channel) cross-product are
not pairwise distinct, `eval_sensitivities()` still completes without error
(the function is total, as the dictionary assignment in the source cannot
fail), the resulting collection has strictly fewer entries than the
cross-product, and the entry stored under any key is the one from the
last-constructed pair with that key — the later construction silently
overwrites the earlier one. -/
theorem evalSensitivities_duplicate_key_overwrite (inst : Instrument)
    (k : String) (h : ¬ ((sensPairs inst.cameras).map Prod.fst).Nodup) :
    (evalSensitivities inst).1.sns_dict =
      some (odictOfPairs (sensPairs inst.cameras)) ∧
    (odictOfPairs (sensPairs inst.cameras)).length <
      (sensPairs inst.cameras).length ∧
    odLookup (odictOfPairs (sensPairs inst.cameras)) k =
      (((sensPairs inst.cameras).filter (fun p => p.1 = k)).getLast?).map
        Prod.snd :=
  ⟨rfl, length_odictOfPairs_lt _ h, odLookup_odictOfPairs _ _⟩

/-- C8 witness: the colliding key "abc" of `instDup`. -/
theorem evalSensitivities_duplicate_key_overwrite_witness :
    (evalSensitivities instDup).1.sns_dict =
      some (odictOfPairs (sensPairs instDup.cameras)) ∧
    (odictOfPairs (sensPairs instDup.cameras)).length <
      (sensPairs instDup.cameras).length ∧
    odLookup (odictOfPairs (sensPairs instDup.cameras)) "abc" =
      (((sensPairs instDup.cameras).filter
        (fun p => p.1 = "abc")).getLast?).map Prod.snd :=
  evalSensitivities_duplicate_key_overwrite instDup "abc" (by decide)

end BoloCalc

